import Mathlib

/-!
Verification of the channel-bridging multiplexer of `circuits/net/socket.py`.

The bridge (`Socket`) owns a public channel, a registry `_sockets` of bound
endpoints, and — per `bind` — a pair of forwarding handlers: an upward one
installed on the endpoint's private channel and a downward one installed on
the bridge's public channel.  Events carry an origin (`event.value.manager`,
the component whose `fire` produced them); the handlers filter by identity
comparison on that origin and re-fire a reconstructed event of the same kind
and payload.

The embedding below models component identities as naturals, channels as
strings, the registry as a duplicate-free list with set membership, and each
installed handler as a `Rule` evaluated against the current bridge state.
Dispatch of a fired event collects the forwarded events of every installed
rule, in installation order; the transitive relay activity of one fired event
is computed with explicit fuel.
-/

namespace Circuits

/-- The fixed event vocabulary of the bridge (`Socket.events` in the source). -/
def socketEvents : List String :=
  ["connect", "disconnect", "connected", "disconnected",
   "read", "error", "write", "close", "ready", "closed"]

/-- An event: kind (the event class), payload (the constructor arguments) and
origin (`event.value.manager`, the identity of the component that fired it). -/
structure Event where
  kind : String
  payload : List String
  origin : Nat
deriving DecidableEq, Repr

/-- A bound transport endpoint: identity and private channel. -/
structure Endpoint where
  id : Nat
  channel : String
deriving DecidableEq, Repr

/-- One installed forwarding handler.  `up chan eid` is the handler installed
by `bind` on the endpoint's private channel `chan`, capturing the endpoint
identity `eid`; `down chan eid ech` is the handler installed on the bridge's
channel `chan` (captured at bind time), capturing the endpoint's identity and
private channel. -/
inductive Rule where
  | up (chan : String) (eid : Nat)
  | down (chan : String) (eid : Nat) (ech : String)
deriving DecidableEq, Repr

/-- The bridge (`Socket`): own identity, public channel, the Binding Registry
(`self._sockets`, a set — modelled as a duplicate-free list), and the
installed forwarding rules in installation order. -/
structure Bridge where
  id : Nat
  channel : String
  sockets : List Nat
  rules : List Rule
deriving DecidableEq, Repr

/-- A fresh bridge: `Socket.__init__` starts with an empty registry and no
installed handlers. -/
def Bridge.init (bid : Nat) (bch : String) : Bridge :=
  ⟨bid, bch, [], []⟩

/-- Evaluate one installed handler on an event `ev` fired on channel `ch`,
against the current bridge state `b` (the closures read `self._sockets`,
`self.channel` and identities at evaluation time).  Returns the forwarded
(channel, event) pair, if any.

Upward handler body: discard unless `event.value.manager is socket`; else
re-fire `event.__class__(*args)` via the endpoint onto `self.channel`
(so the forwarded event's origin is the endpoint).

Downward handler body: discard if `event.value.manager in self._sockets`,
or `event.value.manager is socket`, or `event.value.manager is not self`;
else re-fire `event.__class__(*args)` via the bridge onto `socket.channel`
(so the forwarded event's origin is the bridge). -/
def Rule.eval (b : Bridge) (ch : String) (ev : Event) : Rule → Option (String × Event)
  | .up chan eid =>
      if ch = chan ∧ ev.kind ∈ socketEvents then
        if ev.origin = eid then some (b.channel, ⟨ev.kind, ev.payload, eid⟩)
        else none
      else none
  | .down chan eid ech =>
      if ch = chan ∧ ev.kind ∈ socketEvents then
        if ev.origin ∈ b.sockets then none
        else if ev.origin = eid then none
        else if ev.origin ≠ b.id then none
        else some (ech, ⟨ev.kind, ev.payload, b.id⟩)
      else none

/-- The pair of handlers that one `bind` call installs for endpoint `ep` on a
bridge with public channel `bchan`. -/
def rulePair (bchan : String) (ep : Endpoint) : List Rule :=
  [Rule.up ep.channel ep.id, Rule.down bchan ep.id ep.channel]

/-- `Socket.bind` with an already-live component: add it to the registry
(`set.add`, idempotent) and install the upward/downward handler pair. -/
def bindComponent (b : Bridge) (sock : Endpoint) : Bridge :=
  { b with
    sockets := if sock.id ∈ b.sockets then b.sockets else b.sockets ++ [sock.id]
    rules := b.rules ++ rulePair b.channel sock }

/-- Bind a list of live endpoints in order. -/
def bindAll (b : Bridge) (eps : List Endpoint) : Bridge :=
  eps.foldl bindComponent b

/-- Dispatch one fired event to every installed handler matching its channel,
in installation order, collecting the forwarded (channel, event) pairs. -/
def dispatchOnce (b : Bridge) (ch : String) (ev : Event) : List (String × Event) :=
  b.rules.filterMap (Rule.eval b ch ev)

/-- All deliveries produced from the pending fired events within `fuel`
rounds of dispatch. -/
def relayAux (b : Bridge) : Nat → List (String × Event) → List (String × Event)
  | 0, _ => []
  | n + 1, pending =>
      pending ++ relayAux b n (pending.flatMap (fun p => dispatchOnce b p.1 p.2))

/-- Everything the bridge's handlers forward, transitively, as a result of one
event `ev` fired on channel `ch` (the original delivery itself excluded). -/
def forwards (b : Bridge) (ch : String) (ev : Event) (fuel : Nat) :
    List (String × Event) :=
  relayAux b fuel (dispatchOnce b ch ev)

/-- Well-formed binding configuration: endpoint identities are pairwise
distinct and distinct from the bridge, and private channels are pairwise
distinct and distinct from the bridge's public channel. -/
def WF (bid : Nat) (bch : String) (eps : List Endpoint) : Prop :=
  (eps.map Endpoint.id).Nodup ∧ (∀ ep ∈ eps, ep.id ≠ bid) ∧
    (eps.map Endpoint.channel).Nodup ∧ ∀ ep ∈ eps, ep.channel ≠ bch

instance (bid : Nat) (bch : String) (eps : List Endpoint) :
    Decidable (WF bid bch eps) := by
  unfold WF; infer_instance

/-- Variant downward handler with the `event.value.manager is socket` check
deleted; otherwise identical to the downward branch of `Rule.eval`.  Used to
state that the deleted branch is subsumed by the registry-membership check. -/
def downEvalSubsumed (b : Bridge) (chan : String) (ech : String)
    (ch : String) (ev : Event) : Option (String × Event) :=
  if ch = chan ∧ ev.kind ∈ socketEvents then
    if ev.origin ∈ b.sockets then none
    else if ev.origin ≠ b.id then none
    else some (ech, ⟨ev.kind, ev.payload, b.id⟩)
  else none

/-- A `bind` argument: either an already-live component instance or an opaque
interface descriptor (modelled as a string). -/
inductive Interface where
  | component (ep : Endpoint)
  | addr (descriptor : String)

/-- The resolution environment: the subtype-specific `parse_interface_type`
strategy (`none` models the abstract `Socket`, whose method raises
`NotImplementedError`), the Python `id` function on normalized descriptors,
and the identity of a freshly constructed component. -/
structure ResolveEnv where
  parse : Option (String → List (String × String) × String)
  pyId : String → Nat
  freshId : Nat

/-- `Socket.__get_socket_component`: a live component is used as-is (no
renaming); an opaque descriptor is parsed (`parse_interface_type`, raising
`NotImplementedError` when no strategy is supplied), the construction
context's channel is set to `self.channel + underscore + id(interface)` with
`interface` the parsed, normalized descriptor, and a fresh component is
constructed on that channel. -/
def getSocketComponent (b : Bridge) (env : ResolveEnv) :
    Interface → Except String Endpoint
  | .component ep => .ok ep
  | .addr s =>
      match env.parse with
      | none => .error "NotImplementedError"
      | some p =>
          .ok ⟨env.freshId, b.channel ++ "_" ++ toString (env.pyId (p s).2)⟩

/-- `Socket.bind`, state-passing form: resolve the interface, then register
the endpoint, add it to the registry and install the handler pair.  An
exception raised during resolution propagates to the caller and leaves the
bridge unchanged, because the mutating statements of `bind` run only after
resolution succeeds. -/
def bindRun (b : Bridge) (env : ResolveEnv) (iface : Interface) :
    Bridge × Option String :=
  match getSocketComponent b env iface with
  | .error e => (b, some e)
  | .ok sock => (bindComponent b sock, none)

/-! ### Basic lemmas about the relay machinery -/

lemma relayAux_nil (b : Bridge) : ∀ n, relayAux b n [] = []
  | 0 => rfl
  | n + 1 => by simp [relayAux, relayAux_nil b n]

lemma flatMap_nil_of {α β : Type} (l : List α) (g : α → List β)
    (h : ∀ a ∈ l, g a = []) : l.flatMap g = [] := by
  induction l with
  | nil => rfl
  | cons a l ih =>
      rw [List.flatMap_cons, h a (List.mem_cons_self a l),
        ih (fun c hc => h c (List.mem_cons_of_mem a hc))]
      rfl

lemma flatMap_map_of {α β : Type} (l : List α) (g : α → List β) (f : α → β)
    (h : ∀ a ∈ l, g a = [f a]) : l.flatMap g = l.map f := by
  induction l with
  | nil => rfl
  | cons a l ih =>
      rw [List.flatMap_cons, h a (List.mem_cons_self a l),
        ih (fun c hc => h c (List.mem_cons_of_mem a hc)), List.map_cons,
        List.singleton_append]

lemma count_eq_one_of_mem_nodup {α : Type} [BEq α] [LawfulBEq α] {l : List α}
    {a : α} (hnd : l.Nodup) (ha : a ∈ l) : l.count a = 1 := by
  induction l with
  | nil => cases ha
  | cons c l ih =>
      rw [List.count_cons]
      rcases List.mem_cons.mp ha with rfl | ha'
      · rw [List.count_eq_zero.mpr (List.nodup_cons.mp hnd).1]
        simp
      · have hca : c ≠ a := fun h => (List.nodup_cons.mp hnd).1 (h ▸ ha')
        rw [ih (List.nodup_cons.mp hnd).2 ha']
        simp [hca]

lemma flatMap_single_of {α β : Type} [DecidableEq α] (l : List α) (hnd : l.Nodup)
    (a : α) (ha : a ∈ l) (g : α → List β) (x : β) (hga : g a = [x])
    (hother : ∀ c ∈ l, c ≠ a → g c = []) : l.flatMap g = [x] := by
  induction l with
  | nil => cases ha
  | cons c l ih =>
      rw [List.flatMap_cons]
      rcases List.mem_cons.mp ha with rfl | ha'
      · rw [hga, flatMap_nil_of l g, List.append_nil]
        intro d hd
        exact hother d (List.mem_cons_of_mem a hd)
          (fun hda => (List.nodup_cons.mp hnd).1 (hda ▸ hd))
      · have hca : c ≠ a := fun h => (List.nodup_cons.mp hnd).1 (h ▸ ha')
        rw [hother c (List.mem_cons_self c l) hca, List.nil_append]
        exact ih (List.nodup_cons.mp hnd).2 ha'
          (fun d hd hda => hother d (List.mem_cons_of_mem c hd) hda)

/-- Dispatching over rules installed for a list of endpoints splits into the
per-endpoint contributions of each handler pair. -/
lemma filterMap_flatMap_rules {α : Type} (l : List α) (g : α → List Rule)
    (f : Rule → Option (String × Event)) :
    (l.flatMap g).filterMap f = l.flatMap (fun a => (g a).filterMap f) := by
  induction l with
  | nil => rfl
  | cons a l ih => rw [List.flatMap_cons, List.flatMap_cons, ← ih,
      List.filterMap_append]

/-- Unfolding the registry and rule list of a bridge after binding a list of
endpoints with pairwise-distinct identities none of which is already bound. -/
lemma bindAll_eq (b : Bridge) (eps : List Endpoint)
    (hnd : (eps.map Endpoint.id).Nodup)
    (hdis : ∀ ep ∈ eps, ep.id ∉ b.sockets) :
    bindAll b eps =
      ⟨b.id, b.channel, b.sockets ++ eps.map Endpoint.id,
        b.rules ++ eps.flatMap (rulePair b.channel)⟩ := by
  induction eps generalizing b with
  | nil => simp [bindAll]
  | cons ep eps ih =>
      have hmem : ep.id ∉ b.sockets := hdis ep (List.mem_cons_self ep eps)
      have hstep : bindComponent b ep =
          ⟨b.id, b.channel, b.sockets ++ [ep.id], b.rules ++ rulePair b.channel ep⟩ := by
        simp [bindComponent, hmem]
      have hnd' : (eps.map Endpoint.id).Nodup := (List.nodup_cons.mp (by simpa using hnd)).2
      have hdis' : ∀ e ∈ eps, e.id ∉ (bindComponent b ep).sockets := by
        intro e he
        rw [hstep]
        simp only [List.mem_append, List.mem_singleton]
        rintro (h | h)
        · exact hdis e (List.mem_cons_of_mem ep he) h
        · exact (List.nodup_cons.mp (by simpa using hnd)).1 (h ▸ List.mem_map_of_mem Endpoint.id he)
      have := ih (bindComponent b ep) hnd' hdis'
      rw [bindAll, List.foldl_cons, ← bindAll, this, hstep]
      simp [List.append_assoc]

/-- Registry and rules of a fresh bridge after binding a well-formed list of
endpoints. -/
lemma bindAll_init_eq (bid : Nat) (bch : String) (eps : List Endpoint)
    (hnd : (eps.map Endpoint.id).Nodup) :
    bindAll (Bridge.init bid bch) eps =
      ⟨bid, bch, eps.map Endpoint.id, eps.flatMap (rulePair bch)⟩ := by
  rw [bindAll_eq _ _ hnd (by simp [Bridge.init])]
  simp [Bridge.init]

/-- Binding never removes a registry entry. -/
lemma sockets_mono (b : Bridge) (ep : Endpoint) {x : Nat} (hx : x ∈ b.sockets) :
    x ∈ (bindComponent b ep).sockets := by
  by_cases h : ep.id ∈ b.sockets <;> simp [bindComponent, h, hx]

/-- A sequence of binds never removes a registry entry. -/
lemma sockets_mono_all (eps : List Endpoint) (b : Bridge) {x : Nat}
    (hx : x ∈ b.sockets) : x ∈ (bindAll b eps).sockets := by
  induction eps generalizing b with
  | nil => simpa [bindAll] using hx
  | cons e eps ih =>
      rw [bindAll, List.foldl_cons, ← bindAll]
      exact ih (bindComponent b e) (sockets_mono b e hx)

/-- A bound endpoint's identity is in the registry. -/
lemma mem_sockets_bindAll (b : Bridge) (eps : List Endpoint) (ep : Endpoint)
    (hep : ep ∈ eps) : ep.id ∈ (bindAll b eps).sockets := by
  induction eps generalizing b with
  | nil => cases hep
  | cons e eps ih =>
      rw [bindAll, List.foldl_cons, ← bindAll]
      rcases List.mem_cons.mp hep with rfl | hep'
      · refine sockets_mono_all eps (bindComponent b ep) ?_
        by_cases h : ep.id ∈ b.sockets <;> simp [bindComponent, h]
      · exact ih (bindComponent b e) hep'

/-- The upward handler fires exactly when the event arrives on its channel,
is of a relayed kind, and originated from the captured endpoint. -/
lemma eval_up (b : Bridge) (ch chan : String) (eid : Nat) (ev : Event) :
    Rule.eval b ch ev (Rule.up chan eid) =
      if ch = chan ∧ ev.kind ∈ socketEvents ∧ ev.origin = eid
      then some (b.channel, ⟨ev.kind, ev.payload, eid⟩) else none := by
  simp only [Rule.eval]
  split_ifs <;> first | rfl | tauto

/-- The downward handler fires exactly when the event arrives on its channel,
is of a relayed kind, and survives the three origin discards. -/
lemma eval_down (b : Bridge) (ch chan ech : String) (eid : Nat) (ev : Event) :
    Rule.eval b ch ev (Rule.down chan eid ech) =
      if ch = chan ∧ ev.kind ∈ socketEvents ∧ ev.origin ∉ b.sockets ∧
          ev.origin ≠ eid ∧ ev.origin = b.id
      then some (ech, ⟨ev.kind, ev.payload, b.id⟩) else none := by
  simp only [Rule.eval]
  split_ifs <;> first | rfl | tauto

/-- An event whose kind is outside the vocabulary matches no handler. -/
lemma dispatch_bad_kind (b : Bridge) (ch : String) (ev : Event)
    (hk : ev.kind ∉ socketEvents) : dispatchOnce b ch ev = [] := by
  refine List.filterMap_eq_nil_iff.mpr ?_
  intro r hr
  cases r <;> simp [Rule.eval, hk]

/-- Evaluating the two handlers of one `bind` call on a fired event. -/
lemma filterMap_rulePair (b : Bridge) (ch : String) (ev : Event) (ep : Endpoint)
    (bchan : String) (u d : Option (String × Event))
    (hu : Rule.eval b ch ev (Rule.up ep.channel ep.id) = u)
    (hd : Rule.eval b ch ev (Rule.down bchan ep.id ep.channel) = d) :
    (rulePair bchan ep).filterMap (Rule.eval b ch ev) = u.toList ++ d.toList := by
  simp only [rulePair, List.filterMap_cons, List.filterMap_nil, hu, hd]
  cases u <;> cases d <;> rfl

/-- First dispatch round for a relayed-kind event fired on a bound endpoint's
private channel with that endpoint's origin: exactly the endpoint's upward
handler fires, forwarding a reconstructed event to the public channel. -/
lemma dispatch_endpoint_channel (bid : Nat) (bch : String) (eps : List Endpoint)
    (E : Endpoint) (ev : Event)
    (hnd : (eps.map Endpoint.id).Nodup)
    (hcnd : (eps.map Endpoint.channel).Nodup)
    (hch : ∀ ep ∈ eps, ep.channel ≠ bch)
    (hE : E ∈ eps) (hk : ev.kind ∈ socketEvents) (ho : ev.origin = E.id) :
    dispatchOnce (⟨bid, bch, eps.map Endpoint.id, eps.flatMap (rulePair bch)⟩ : Bridge)
        E.channel ev = [(bch, ⟨ev.kind, ev.payload, E.id⟩)] := by
  set B : Bridge := ⟨bid, bch, eps.map Endpoint.id, eps.flatMap (rulePair bch)⟩ with hB
  have hrules : B.rules = eps.flatMap (rulePair bch) := by rw [hB]
  rw [dispatchOnce, hrules, filterMap_flatMap_rules]
  refine flatMap_single_of eps (hnd.of_map _) E hE _ _ ?_ ?_
  · have hu : Rule.eval B E.channel ev (Rule.up E.channel E.id) =
        some (bch, ⟨ev.kind, ev.payload, E.id⟩) := by
      rw [eval_up]
      split_ifs with h
      · rfl
      · exact absurd ⟨rfl, hk, ho⟩ h
    have hd : Rule.eval B E.channel ev (Rule.down bch E.id E.channel) = none := by
      rw [eval_down]
      split_ifs with h
      · exact absurd h.1 (hch E hE)
      · rfl
    rw [filterMap_rulePair B E.channel ev E bch _ _ hu hd]
    rfl
  · intro C hC hne
    have hchan : E.channel ≠ C.channel := fun h =>
      hne (List.inj_on_of_nodup_map hcnd hC hE h.symm)
    have hu : Rule.eval B E.channel ev (Rule.up C.channel C.id) = none := by
      rw [eval_up]
      split_ifs with h
      · exact absurd h.1 hchan
      · rfl
    have hd : Rule.eval B E.channel ev (Rule.down bch C.id C.channel) = none := by
      rw [eval_down]
      split_ifs with h
      · exact absurd h.1 (hch E hE)
      · rfl
    rw [filterMap_rulePair B E.channel ev C bch _ _ hu hd]
    rfl

/-- An event on the public channel whose origin is a registry member is
forwarded by no handler. -/
lemma dispatch_public_member (bid : Nat) (bch : String) (eps : List Endpoint)
    (ev : Event)
    (hch : ∀ ep ∈ eps, ep.channel ≠ bch)
    (hmem : ev.origin ∈ eps.map Endpoint.id) :
    dispatchOnce (⟨bid, bch, eps.map Endpoint.id, eps.flatMap (rulePair bch)⟩ : Bridge)
        bch ev = [] := by
  set B : Bridge := ⟨bid, bch, eps.map Endpoint.id, eps.flatMap (rulePair bch)⟩ with hB
  have hrules : B.rules = eps.flatMap (rulePair bch) := by rw [hB]
  rw [dispatchOnce, hrules, filterMap_flatMap_rules]
  refine flatMap_nil_of eps _ ?_
  intro C hC
  have hu : Rule.eval B bch ev (Rule.up C.channel C.id) = none := by
    rw [eval_up]
    split_ifs with h
    · exact absurd h.1.symm (hch C hC)
    · rfl
  have hd : Rule.eval B bch ev (Rule.down bch C.id C.channel) = none := by
    rw [eval_down]
    split_ifs with h
    · exact absurd hmem h.2.2.1
    · rfl
  rw [filterMap_rulePair B bch ev C bch _ _ hu hd]
  rfl

/-- A bridge-originated event on a bound endpoint's private channel is
forwarded by no handler (its origin is no endpoint's identity, so every upward
filter discards it). -/
lemma dispatch_private_bridge (bid : Nat) (bch : String) (eps : List Endpoint)
    (ep : Endpoint) (ev : Event)
    (hid : ∀ e ∈ eps, e.id ≠ bid)
    (hch : ∀ e ∈ eps, e.channel ≠ bch)
    (hep : ep ∈ eps) (ho : ev.origin = bid) :
    dispatchOnce (⟨bid, bch, eps.map Endpoint.id, eps.flatMap (rulePair bch)⟩ : Bridge)
        ep.channel ev = [] := by
  set B : Bridge := ⟨bid, bch, eps.map Endpoint.id, eps.flatMap (rulePair bch)⟩ with hB
  have hrules : B.rules = eps.flatMap (rulePair bch) := by rw [hB]
  rw [dispatchOnce, hrules, filterMap_flatMap_rules]
  refine flatMap_nil_of eps _ ?_
  intro C hC
  have hu : Rule.eval B ep.channel ev (Rule.up C.channel C.id) = none := by
    rw [eval_up]
    split_ifs with h
    · exact absurd (ho ▸ h.2.2 : bid = C.id).symm (hid C hC)
    · rfl
  have hd : Rule.eval B ep.channel ev (Rule.down bch C.id C.channel) = none := by
    rw [eval_down]
    split_ifs with h
    · exact absurd h.1 (hch ep hep)
    · rfl
  rw [filterMap_rulePair B ep.channel ev C bch _ _ hu hd]
  rfl

/-- First dispatch round for a relayed-kind event fired on the public channel
with the bridge's own origin: exactly the downward handlers fire, one per
bound endpoint, each forwarding a reconstructed event to its endpoint's
private channel. -/
lemma dispatch_public_bridge (bid : Nat) (bch : String) (eps : List Endpoint)
    (ev : Event)
    (hid : ∀ e ∈ eps, e.id ≠ bid)
    (hch : ∀ e ∈ eps, e.channel ≠ bch)
    (hk : ev.kind ∈ socketEvents) (ho : ev.origin = bid) :
    dispatchOnce (⟨bid, bch, eps.map Endpoint.id, eps.flatMap (rulePair bch)⟩ : Bridge)
        bch ev =
      eps.map (fun ep => (ep.channel, (⟨ev.kind, ev.payload, bid⟩ : Event))) := by
  set B : Bridge := ⟨bid, bch, eps.map Endpoint.id, eps.flatMap (rulePair bch)⟩ with hB
  have hrules : B.rules = eps.flatMap (rulePair bch) := by rw [hB]
  have hsock : B.sockets = eps.map Endpoint.id := by rw [hB]
  rw [dispatchOnce, hrules, filterMap_flatMap_rules]
  refine flatMap_map_of eps _ _ ?_
  intro C hC
  have hnmem : ev.origin ∉ B.sockets := by
    rw [hsock, List.mem_map]
    rintro ⟨e, he, heq⟩
    exact hid e he (heq.trans ho)
  have hu : Rule.eval B bch ev (Rule.up C.channel C.id) = none := by
    rw [eval_up]
    split_ifs with h
    · exact absurd h.1.symm (hch C hC)
    · rfl
  have hd : Rule.eval B bch ev (Rule.down bch C.id C.channel) =
      some (C.channel, ⟨ev.kind, ev.payload, bid⟩) := by
    rw [eval_down]
    split_ifs with h
    · rfl
    · refine absurd ⟨rfl, hk, hnmem, ?_, ho⟩ h
      intro heq
      exact hid C hC ((heq.symm.trans ho).symm ▸ rfl)
  rw [filterMap_rulePair B bch ev C bch _ _ hu hd]
  rfl

/-! ### The claims -/

/-- C6: only events of the ten fixed kinds are ever relayed; an event of any
other kind, on any channel of any bridge, is never forwarded. -/
theorem closed_vocabulary (b : Bridge) (ch : String) (ev : Event) (n : Nat)
    (hk : ev.kind ∉ socketEvents) : forwards b ch ev n = [] := by
  rw [forwards, dispatch_bad_kind b ch ev hk, relayAux_nil]

/-- C6 witness at a concrete bridge, channel and non-vocabulary event. -/
theorem closed_vocabulary_witness :
    "foo" ∉ socketEvents ∧
      forwards (bindAll (Bridge.init 0 "b") [⟨1, "s1"⟩, ⟨2, "s2"⟩]) "s1"
        ⟨"foo", ["x"], 1⟩ 5 = [] :=
  ⟨by decide, closed_vocabulary _ "s1" ⟨"foo", ["x"], 1⟩ 5 (by decide)⟩

/-- C5: for every bound endpoint, the upward rule is installed and forwards an
event to the bridge's public channel exactly when the event arrives on the
endpoint's private channel, is of a relayed kind, and its origin is that
endpoint; what it forwards is a reconstructed event of the same kind and
payload. -/
theorem upward_filter (bid : Nat) (bch : String) (eps : List Endpoint)
    (ep : Endpoint) (ch : String) (ev : Event)
    (hwf : WF bid bch eps) (hep : ep ∈ eps) :
    Rule.up ep.channel ep.id ∈ (bindAll (Bridge.init bid bch) eps).rules ∧
    Rule.eval (bindAll (Bridge.init bid bch) eps) ch ev
        (Rule.up ep.channel ep.id) =
      (if ch = ep.channel ∧ ev.kind ∈ socketEvents ∧ ev.origin = ep.id
       then some (bch, ⟨ev.kind, ev.payload, ep.id⟩) else none) := by
  obtain ⟨hnd, -, -, -⟩ := hwf
  rw [bindAll_init_eq bid bch eps hnd]
  constructor
  · simp only [List.mem_flatMap]
    exact ⟨ep, hep, by simp [rulePair]⟩
  · rw [eval_up]

/-- C5 witness: a well-formed two-endpoint configuration and a concrete event
originating from the bound endpoint on its own channel. -/
theorem upward_filter_witness :
    WF 0 "b" [⟨1, "s1"⟩, ⟨2, "s2"⟩] ∧
      (⟨1, "s1"⟩ : Endpoint) ∈ [(⟨1, "s1"⟩ : Endpoint), ⟨2, "s2"⟩] ∧
      (Rule.up "s1" 1 ∈ (bindAll (Bridge.init 0 "b") [⟨1, "s1"⟩, ⟨2, "s2"⟩]).rules ∧
        Rule.eval (bindAll (Bridge.init 0 "b") [⟨1, "s1"⟩, ⟨2, "s2"⟩]) "s1"
            ⟨"read", ["x"], 1⟩ (Rule.up "s1" 1) =
          (if "s1" = "s1" ∧ "read" ∈ socketEvents ∧ 1 = 1
           then some ("b", ⟨"read", ["x"], 1⟩) else none)) :=
  ⟨by decide, by decide,
    upward_filter 0 "b" [⟨1, "s1"⟩, ⟨2, "s2"⟩] ⟨1, "s1"⟩ "s1"
      ⟨"read", ["x"], 1⟩ (by decide) (by decide)⟩

/-- C4: for every bound endpoint, the downward rule is installed on the
bridge's public channel and forwards a relayed-kind event to the endpoint's
private channel exactly when the event's origin is the bridge itself;
registry-member origins, the endpoint's own origin, and any other non-bridge
origin are discarded. -/
theorem downward_filter (bid : Nat) (bch : String) (eps : List Endpoint)
    (ep : Endpoint) (ev : Event)
    (hwf : WF bid bch eps) (hep : ep ∈ eps) (hk : ev.kind ∈ socketEvents) :
    Rule.down bch ep.id ep.channel ∈ (bindAll (Bridge.init bid bch) eps).rules ∧
    Rule.eval (bindAll (Bridge.init bid bch) eps) bch ev
        (Rule.down bch ep.id ep.channel) =
      (if ev.origin = bid then some (ep.channel, ⟨ev.kind, ev.payload, bid⟩)
       else none) := by
  obtain ⟨hnd, hid, -, -⟩ := hwf
  rw [bindAll_init_eq bid bch eps hnd]
  constructor
  · simp only [List.mem_flatMap]
    exact ⟨ep, hep, by simp [rulePair]⟩
  · rw [eval_down]
    refine if_congr ?_ rfl rfl
    constructor
    · rintro ⟨-, -, -, -, h⟩; exact h
    · intro h
      refine ⟨rfl, hk, ?_, ?_, h⟩
      · intro hmem
        simp only [List.mem_map] at hmem
        obtain ⟨e, he, heq⟩ := hmem
        exact hid e he (by rw [heq, h])
      · intro heq
        exact hid ep hep (by rw [← heq, h])

/-- C4 witness: in the two-endpoint configuration, a `write` event with the
bridge's own origin passes the downward filter of endpoint 1. -/
theorem downward_filter_witness :
    WF 0 "b" [⟨1, "s1"⟩, ⟨2, "s2"⟩] ∧
      (⟨1, "s1"⟩ : Endpoint) ∈ [(⟨1, "s1"⟩ : Endpoint), ⟨2, "s2"⟩] ∧
      "write" ∈ socketEvents ∧
      (Rule.down "b" 1 "s1" ∈ (bindAll (Bridge.init 0 "b") [⟨1, "s1"⟩, ⟨2, "s2"⟩]).rules ∧
        Rule.eval (bindAll (Bridge.init 0 "b") [⟨1, "s1"⟩, ⟨2, "s2"⟩]) "b"
            ⟨"write", ["hi"], 0⟩ (Rule.down "b" 1 "s1") =
          (if (0 : Nat) = 0 then some ("s1", ⟨"write", ["hi"], 0⟩) else none)) :=
  ⟨by decide, by decide, by decide,
    downward_filter 0 "b" [⟨1, "s1"⟩, ⟨2, "s2"⟩] ⟨1, "s1"⟩
      ⟨"write", ["hi"], 0⟩ (by decide) (by decide) (by decide)⟩

/-- C1: no self-echo — a relayed-kind event fired with a bound endpoint's
origin on that endpoint's private channel is forwarded exactly once, to the
bridge's public channel, as a reconstructed event of the same kind and
payload, and nothing is delivered back to the endpoint's private channel in
the same relay pass. -/
theorem no_self_echo (bid : Nat) (bch : String) (eps : List Endpoint)
    (E : Endpoint) (ev : Event) (n : Nat)
    (hwf : WF bid bch eps) (hE : E ∈ eps)
    (hk : ev.kind ∈ socketEvents) (ho : ev.origin = E.id) :
    forwards (bindAll (Bridge.init bid bch) eps) E.channel ev (n + 1) =
      [(bch, ⟨ev.kind, ev.payload, E.id⟩)] ∧
    (forwards (bindAll (Bridge.init bid bch) eps) E.channel ev (n + 1)).count
      (bch, ⟨ev.kind, ev.payload, E.id⟩) = 1 ∧
    ∀ d ∈ forwards (bindAll (Bridge.init bid bch) eps) E.channel ev (n + 1),
      d.1 ≠ E.channel := by
  obtain ⟨hnd, hid, hcnd, hch⟩ := hwf
  rw [bindAll_init_eq bid bch eps hnd]
  have h1 := dispatch_endpoint_channel bid bch eps E ev hnd hcnd hch hE hk ho
  have h2 : dispatchOnce
      (⟨bid, bch, eps.map Endpoint.id, eps.flatMap (rulePair bch)⟩ : Bridge)
      bch ⟨ev.kind, ev.payload, E.id⟩ = [] :=
    dispatch_public_member bid bch eps _ hch (List.mem_map_of_mem Endpoint.id hE)
  have h3 : forwards
      (⟨bid, bch, eps.map Endpoint.id, eps.flatMap (rulePair bch)⟩ : Bridge)
      E.channel ev (n + 1) = [(bch, ⟨ev.kind, ev.payload, E.id⟩)] := by
    rw [forwards, h1]
    simp only [relayAux, List.flatMap_cons, List.flatMap_nil, List.append_nil,
      h2, relayAux_nil]
  refine ⟨h3, ?_, ?_⟩
  · rw [h3]; simp
  · intro d hd
    rw [h3, List.mem_singleton] at hd
    subst hd
    exact Ne.symm (hch E hE)

/-- C1 witness: endpoint 1 of the two-endpoint configuration fires a `read`
event on its own channel. -/
theorem no_self_echo_witness :
    WF 0 "b" [⟨1, "s1"⟩, ⟨2, "s2"⟩] ∧
      (⟨1, "s1"⟩ : Endpoint) ∈ [(⟨1, "s1"⟩ : Endpoint), ⟨2, "s2"⟩] ∧
      "read" ∈ socketEvents ∧
      (forwards (bindAll (Bridge.init 0 "b") [⟨1, "s1"⟩, ⟨2, "s2"⟩]) "s1"
          ⟨"read", ["x"], 1⟩ (0 + 1) = [("b", ⟨"read", ["x"], 1⟩)] ∧
        (forwards (bindAll (Bridge.init 0 "b") [⟨1, "s1"⟩, ⟨2, "s2"⟩]) "s1"
            ⟨"read", ["x"], 1⟩ (0 + 1)).count ("b", ⟨"read", ["x"], 1⟩) = 1 ∧
        ∀ d ∈ forwards (bindAll (Bridge.init 0 "b") [⟨1, "s1"⟩, ⟨2, "s2"⟩]) "s1"
            ⟨"read", ["x"], 1⟩ (0 + 1), d.1 ≠ "s1") :=
  ⟨by decide, by decide, by decide,
    no_self_echo 0 "b" [⟨1, "s1"⟩, ⟨2, "s2"⟩] ⟨1, "s1"⟩ ⟨"read", ["x"], 1⟩ 0
      (by decide) (by decide) (by decide) (by decide)⟩

/-- C2: no cross-endpoint leakage — an event originating from one bound
endpoint is never delivered to a different bound endpoint's private channel,
whether it is fired on the originating endpoint's private channel or appears
on the bridge's public channel. -/
theorem no_cross_endpoint_leakage (bid : Nat) (bch : String) (eps : List Endpoint)
    (E1 E2 : Endpoint) (ev : Event) (n : Nat)
    (hwf : WF bid bch eps) (h1 : E1 ∈ eps) (h2 : E2 ∈ eps) (hne : E1 ≠ E2)
    (ho : ev.origin = E1.id) :
    (∀ d ∈ forwards (bindAll (Bridge.init bid bch) eps) E1.channel ev n,
      d.1 ≠ E2.channel) ∧
    ∀ d ∈ forwards (bindAll (Bridge.init bid bch) eps) bch ev n,
      d.1 ≠ E2.channel := by
  obtain ⟨hnd, hid, hcnd, hch⟩ := hwf
  rw [bindAll_init_eq bid bch eps hnd]
  by_cases hk : ev.kind ∈ socketEvents
  · have hmem : ev.origin ∈ eps.map Endpoint.id := by
      rw [ho]; exact List.mem_map_of_mem Endpoint.id h1
    constructor
    · have hL1 := dispatch_endpoint_channel bid bch eps E1 ev hnd hcnd hch h1 hk ho
      have hL2 : dispatchOnce
          (⟨bid, bch, eps.map Endpoint.id, eps.flatMap (rulePair bch)⟩ : Bridge)
          bch ⟨ev.kind, ev.payload, E1.id⟩ = [] :=
        dispatch_public_member bid bch eps _ hch (List.mem_map_of_mem Endpoint.id h1)
      intro d hd
      rw [forwards, hL1] at hd
      cases n with
      | zero => cases hd
      | succ m =>
          simp only [relayAux, List.flatMap_cons, List.flatMap_nil,
            List.append_nil, hL2, relayAux_nil, List.mem_singleton] at hd
          subst hd
          exact Ne.symm (hch E2 h2)
    · have hL : dispatchOnce
          (⟨bid, bch, eps.map Endpoint.id, eps.flatMap (rulePair bch)⟩ : Bridge)
          bch ev = [] :=
        dispatch_public_member bid bch eps ev hch hmem
      intro d hd
      rw [forwards, hL, relayAux_nil] at hd
      cases hd
  · constructor <;>
    · intro d hd
      rw [forwards, dispatch_bad_kind _ _ _ hk, relayAux_nil] at hd
      cases hd

/-- C2 witness: endpoint 1 fires a `read` event; nothing reaches endpoint 2's
channel, whether the event starts on endpoint 1's channel or on the public
channel. -/
theorem no_cross_endpoint_leakage_witness :
    WF 0 "b" [⟨1, "s1"⟩, ⟨2, "s2"⟩] ∧
      (⟨1, "s1"⟩ : Endpoint) ∈ [(⟨1, "s1"⟩ : Endpoint), ⟨2, "s2"⟩] ∧
      (⟨2, "s2"⟩ : Endpoint) ∈ [(⟨1, "s1"⟩ : Endpoint), ⟨2, "s2"⟩] ∧
      (⟨1, "s1"⟩ : Endpoint) ≠ ⟨2, "s2"⟩ ∧
      ((∀ d ∈ forwards (bindAll (Bridge.init 0 "b") [⟨1, "s1"⟩, ⟨2, "s2"⟩]) "s1"
          ⟨"read", ["x"], 1⟩ 5, d.1 ≠ "s2") ∧
        ∀ d ∈ forwards (bindAll (Bridge.init 0 "b") [⟨1, "s1"⟩, ⟨2, "s2"⟩]) "b"
          ⟨"read", ["x"], 1⟩ 5, d.1 ≠ "s2") :=
  ⟨by decide, by decide, by decide, by decide,
    no_cross_endpoint_leakage 0 "b" [⟨1, "s1"⟩, ⟨2, "s2"⟩] ⟨1, "s1"⟩ ⟨2, "s2"⟩
      ⟨"read", ["x"], 1⟩ 5 (by decide) (by decide) (by decide) (by decide)
      (by decide)⟩

/-- C3: bridge-initiated fan-out — a relayed-kind event fired with the
bridge's own origin on the public channel is forwarded to every endpoint in
the registry, on its private channel, exactly once per endpoint, as a
reconstructed event of the same kind and payload. -/
theorem bridge_fanout (bid : Nat) (bch : String) (eps : List Endpoint)
    (ev : Event) (n : Nat)
    (hwf : WF bid bch eps) (hk : ev.kind ∈ socketEvents) (ho : ev.origin = bid) :
    forwards (bindAll (Bridge.init bid bch) eps) bch ev (n + 1) =
      eps.map (fun ep => (ep.channel, (⟨ev.kind, ev.payload, bid⟩ : Event))) ∧
    ∀ ep ∈ eps,
      (forwards (bindAll (Bridge.init bid bch) eps) bch ev (n + 1)).count
        (ep.channel, (⟨ev.kind, ev.payload, bid⟩ : Event)) = 1 := by
  obtain ⟨hnd, hid, hcnd, hch⟩ := hwf
  rw [bindAll_init_eq bid bch eps hnd]
  have hL1 := dispatch_public_bridge bid bch eps ev hid hch hk ho
  have h3 : forwards
      (⟨bid, bch, eps.map Endpoint.id, eps.flatMap (rulePair bch)⟩ : Bridge)
      bch ev (n + 1) =
      eps.map (fun ep => (ep.channel, (⟨ev.kind, ev.payload, bid⟩ : Event))) := by
    rw [forwards, hL1]
    simp only [relayAux]
    have hsteps : (eps.map
        (fun ep => (ep.channel, (⟨ev.kind, ev.payload, bid⟩ : Event)))).flatMap
        (fun p => dispatchOnce
          (⟨bid, bch, eps.map Endpoint.id, eps.flatMap (rulePair bch)⟩ : Bridge)
          p.1 p.2) = [] := by
      refine flatMap_nil_of _ _ ?_
      intro q hq
      rw [List.mem_map] at hq
      obtain ⟨ep, hep, rfl⟩ := hq
      exact dispatch_private_bridge bid bch eps ep ⟨ev.kind, ev.payload, bid⟩
        hid hch hep rfl
    rw [hsteps, relayAux_nil, List.append_nil]
  refine ⟨h3, ?_⟩
  intro ep hep
  rw [h3]
  have hmapnd : (eps.map
      (fun ep => (ep.channel, (⟨ev.kind, ev.payload, bid⟩ : Event)))).Nodup := by
    have hcomp : eps.map
        (fun ep => (ep.channel, (⟨ev.kind, ev.payload, bid⟩ : Event))) =
        (eps.map Endpoint.channel).map
          (fun s => (s, (⟨ev.kind, ev.payload, bid⟩ : Event))) := by
      rw [List.map_map]
      rfl
    rw [hcomp]
    exact hcnd.map (fun a b h => congrArg Prod.fst h)
  exact count_eq_one_of_mem_nodup hmapnd (List.mem_map_of_mem _ hep)

/-- C3 witness: the bridge fires `write` on its public channel; both bound
endpoints receive it once each. -/
theorem bridge_fanout_witness :
    WF 0 "b" [⟨1, "s1"⟩, ⟨2, "s2"⟩] ∧
      "write" ∈ socketEvents ∧
      (forwards (bindAll (Bridge.init 0 "b") [⟨1, "s1"⟩, ⟨2, "s2"⟩]) "b"
          ⟨"write", ["hi"], 0⟩ (0 + 1) =
        [(⟨1, "s1"⟩ : Endpoint), ⟨2, "s2"⟩].map
          (fun ep => (ep.channel, (⟨"write", ["hi"], 0⟩ : Event))) ∧
        ∀ ep ∈ [(⟨1, "s1"⟩ : Endpoint), ⟨2, "s2"⟩],
          (forwards (bindAll (Bridge.init 0 "b") [⟨1, "s1"⟩, ⟨2, "s2"⟩]) "b"
              ⟨"write", ["hi"], 0⟩ (0 + 1)).count
            (ep.channel, (⟨"write", ["hi"], 0⟩ : Event)) = 1) :=
  ⟨by decide, by decide,
    bridge_fanout 0 "b" [⟨1, "s1"⟩, ⟨2, "s2"⟩] ⟨"write", ["hi"], 0⟩ 0
      (by decide) (by decide) (by decide)⟩

/-- The downward handler agrees with its self-check-deleted variant whenever
the captured endpoint's identity is in the registry. -/
lemma downEval_eq_subsumed (b : Bridge) (chan ech : String) (eid : Nat)
    (hmem : eid ∈ b.sockets) (ch : String) (ev : Event) :
    Rule.eval b ch ev (Rule.down chan eid ech) =
      downEvalSubsumed b chan ech ch ev := by
  simp only [Rule.eval, downEvalSubsumed]
  by_cases h1 : ch = chan ∧ ev.kind ∈ socketEvents
  · by_cases h2 : ev.origin ∈ b.sockets
    · simp [h1, h2]
    · have h3 : ev.origin ≠ eid := fun h => h2 (h ▸ hmem)
      simp [h1, h2, h3]
  · simp [h1]

/-- C9: the downward rule's endpoint-identity discard branch is subsumed —
after any sequence of binds containing the endpoint, the endpoint's identity
is in the Binding Registry, and the downward rule behaves identically with
the separate `origin is the captured endpoint` check deleted. -/
theorem down_rule_self_check_subsumed (b0 : Bridge) (eps : List Endpoint)
    (ep : Endpoint) (chan : String) (hep : ep ∈ eps) :
    ep.id ∈ (bindAll b0 eps).sockets ∧
    ∀ ch ev, Rule.eval (bindAll b0 eps) ch ev
        (Rule.down chan ep.id ep.channel) =
      downEvalSubsumed (bindAll b0 eps) chan ep.channel ch ev := by
  have hmem := mem_sockets_bindAll b0 eps ep hep
  exact ⟨hmem, fun ch ev =>
    downEval_eq_subsumed (bindAll b0 eps) chan ep.channel ep.id hmem ch ev⟩

/-- C9 witness: a single bound endpoint on a fresh bridge. -/
theorem down_rule_self_check_subsumed_witness :
    (⟨1, "s1"⟩ : Endpoint) ∈ [(⟨1, "s1"⟩ : Endpoint)] ∧
      ((1 : Nat) ∈ (bindAll (Bridge.init 0 "b") [⟨1, "s1"⟩]).sockets ∧
        ∀ ch ev, Rule.eval (bindAll (Bridge.init 0 "b") [⟨1, "s1"⟩]) ch ev
            (Rule.down "b" 1 "s1") =
          downEvalSubsumed (bindAll (Bridge.init 0 "b") [⟨1, "s1"⟩]) "b" "s1"
            ch ev) :=
  ⟨by decide,
    down_rule_self_check_subsumed (Bridge.init 0 "b") [⟨1, "s1"⟩] ⟨1, "s1"⟩ "b"
      (by decide)⟩

/-- C10: binding the same live endpoint twice leaves it in the registry once
(set membership is idempotent) but installs a second handler pair, so a
relayed-kind event it fires on its private channel is forwarded to the public
channel twice, once per installed upward handler. -/
theorem duplicate_bind_double_forward (bid : Nat) (bch : String) (E : Endpoint)
    (ev : Event) (n : Nat)
    (hid : E.id ≠ bid) (hch : E.channel ≠ bch)
    (hk : ev.kind ∈ socketEvents) (ho : ev.origin = E.id) :
    (bindComponent (bindComponent (Bridge.init bid bch) E) E).sockets.count
      E.id = 1 ∧
    forwards (bindComponent (bindComponent (Bridge.init bid bch) E) E)
        E.channel ev (n + 1) =
      [(bch, ⟨ev.kind, ev.payload, E.id⟩), (bch, ⟨ev.kind, ev.payload, E.id⟩)] ∧
    (forwards (bindComponent (bindComponent (Bridge.init bid bch) E) E)
        E.channel ev (n + 1)).count (bch, ⟨ev.kind, ev.payload, E.id⟩) = 2 := by
  have hB : bindComponent (bindComponent (Bridge.init bid bch) E) E =
      ⟨bid, bch, [E.id],
        [Rule.up E.channel E.id, Rule.down bch E.id E.channel,
         Rule.up E.channel E.id, Rule.down bch E.id E.channel]⟩ := by
    simp [bindComponent, Bridge.init, rulePair]
  rw [hB]
  set B : Bridge :=
    ⟨bid, bch, [E.id],
      [Rule.up E.channel E.id, Rule.down bch E.id E.channel,
       Rule.up E.channel E.id, Rule.down bch E.id E.channel]⟩ with hBB
  have hu : Rule.eval B E.channel ev (Rule.up E.channel E.id) =
      some (bch, ⟨ev.kind, ev.payload, E.id⟩) := by
    rw [eval_up]
    split_ifs with h
    · rfl
    · exact absurd ⟨rfl, hk, ho⟩ h
  have hd : Rule.eval B E.channel ev (Rule.down bch E.id E.channel) = none := by
    rw [eval_down]
    split_ifs with h
    · exact absurd h.1 hch
    · rfl
  have hdisp : dispatchOnce B E.channel ev =
      [(bch, ⟨ev.kind, ev.payload, E.id⟩), (bch, ⟨ev.kind, ev.payload, E.id⟩)] := by
    rw [dispatchOnce, hBB]
    simp [List.filterMap_cons, hBB ▸ hu, hBB ▸ hd]
  have hu2 : Rule.eval B bch ⟨ev.kind, ev.payload, E.id⟩
      (Rule.up E.channel E.id) = none := by
    rw [eval_up]
    split_ifs with h
    · exact absurd h.1.symm hch
    · rfl
  have hd2 : Rule.eval B bch ⟨ev.kind, ev.payload, E.id⟩
      (Rule.down bch E.id E.channel) = none := by
    rw [eval_down]
    split_ifs with h
    · exact absurd rfl h.2.2.2.1
    · rfl
  have hdisp2 : dispatchOnce B bch ⟨ev.kind, ev.payload, E.id⟩ = [] := by
    rw [dispatchOnce, hBB]
    simp [List.filterMap_cons, hBB ▸ hu2, hBB ▸ hd2]
  have h3 : forwards B E.channel ev (n + 1) =
      [(bch, ⟨ev.kind, ev.payload, E.id⟩), (bch, ⟨ev.kind, ev.payload, E.id⟩)] := by
    rw [forwards, hdisp]
    simp only [relayAux, List.flatMap_cons, List.flatMap_nil, List.append_nil,
      hdisp2, relayAux_nil]
  refine ⟨by simp, h3, ?_⟩
  rw [h3]
  simp [List.count_cons]

/-- C10 witness: endpoint 1 bound twice; its `read` event is relayed to the
public channel twice while the registry holds it once. -/
theorem duplicate_bind_double_forward_witness :
    (1 : Nat) ≠ 0 ∧ "s1" ≠ "b" ∧ "read" ∈ socketEvents ∧
      ((bindComponent (bindComponent (Bridge.init 0 "b") ⟨1, "s1"⟩)
          ⟨1, "s1"⟩).sockets.count 1 = 1 ∧
        forwards (bindComponent (bindComponent (Bridge.init 0 "b") ⟨1, "s1"⟩)
            ⟨1, "s1"⟩) "s1" ⟨"read", ["x"], 1⟩ (0 + 1) =
          [("b", ⟨"read", ["x"], 1⟩), ("b", ⟨"read", ["x"], 1⟩)] ∧
        (forwards (bindComponent (bindComponent (Bridge.init 0 "b") ⟨1, "s1"⟩)
            ⟨1, "s1"⟩) "s1" ⟨"read", ["x"], 1⟩ (0 + 1)).count
          ("b", ⟨"read", ["x"], 1⟩) = 2) :=
  ⟨by decide, by decide, by decide,
    duplicate_bind_double_forward 0 "b" ⟨1, "s1"⟩ ⟨"read", ["x"], 1⟩ 0
      (by decide) (by decide) (by decide) (by decide)⟩

/-- C7: resolver contract — a live component descriptor is returned unchanged
(and keeps its own channel), while an opaque descriptor yields a freshly
constructed endpoint whose private channel is the bridge's public channel
followed by an underscore and the uniqueness token of the parsed, normalized
descriptor. -/
theorem resolver_contract (b : Bridge) (env : ResolveEnv) (ep : Endpoint)
    (p : String → List (String × String) × String) (pyId : String → Nat)
    (fresh : Nat) (s : String) :
    getSocketComponent b env (Interface.component ep) = Except.ok ep ∧
    getSocketComponent b ⟨some p, pyId, fresh⟩ (Interface.addr s) =
      Except.ok ⟨fresh, b.channel ++ "_" ++ toString (pyId (p s).2)⟩ :=
  ⟨rfl, rfl⟩

/-- C8: bind error atomicity — on the abstract bridge, binding an opaque
descriptor raises a NotImplemented-style error synchronously and the bridge
state (registry and installed rules alike) is exactly what it was before the
call. -/
theorem bind_abstract_error_atomic (b : Bridge) (pyId : String → Nat)
    (fresh : Nat) (s : String) :
    bindRun b ⟨none, pyId, fresh⟩ (Interface.addr s) =
      (b, some "NotImplementedError") :=
  rfl

end Circuits
